import Mathlib

/-!
Shallow embedding of the return/risk calculator of `update_etf_data.py`
(repository ETF_Update_Tool).  The core functions embedded here are
`get_previous_week_last_trading_day` (lines 61-88),
`get_last_trading_day_of_month` (lines 90-112),
`calculate_volatility_and_mdd` (lines 114-148),
`calculate_52week_high_drawdown` (lines 150-163) and
`calculate_returns` (lines 165-255).

Modelling conventions:
* A calendar date is an integer day count (days since 1970-01-01); the
  conversions to and from (year, month, day) triples implement the standard
  proleptic-Gregorian civil-calendar algorithm, modelling Python's
  `datetime.date` arithmetic (`timedelta`, `replace`, `weekday`).
* Prices are exact rationals.  Since the Python code computes with floats,
  a NaN value can arise from the sample standard deviation of fewer than two
  numbers; a possibly-NaN float is modelled as `Option ℚ` with `none` = NaN.
  Square roots are modelled by a rational stand-in `ratSqrt` that is exact on
  perfect squares of rationals; no theorem below depends on the value of an
  inexact square root, only on its being zero/nonzero/defined.
* The wall clock `datetime.now(...)` that `calculate_returns` reads is passed
  explicitly as a `Now` value (date plus minutes since midnight).
* All definitions are total; theorems restrict attention to the domains on
  which the float code has the modelled exact semantics (nonempty series,
  strictly positive prices) where this matters.
-/

namespace ETF

/-- A price series: the observations of one instrument in index order, each the
pair of the calendar date of `index[i].date()` (a day count since 1970-01-01,
modelling Python `datetime.date`) and the close `iloc[i]`. -/
abbrev PriceSeries := List (ℤ × ℚ)

/-- The wall clock read by `calculate_returns` (line 175): the current
US/Eastern calendar date and the current time as minutes since midnight. -/
structure Now where
  date : ℤ
  time : ℕ
deriving DecidableEq

/-- Python `date.weekday()`: Monday = 0 .. Sunday = 6.  Day 0 (1970-01-01) was
a Thursday, hence the offset 3. -/
def weekday (d : ℤ) : ℤ := (d + 3).emod 7

/-- Civil-calendar conversion: (year, month, day) to day count since
1970-01-01 (models constructing a Python `datetime.date`). -/
def toDate (y m d : ℤ) : ℤ :=
  let y2 := if m ≤ 2 then y - 1 else y
  let era := y2.ediv 400
  let yoe := y2 - era * 400
  let mp := (m + 9).emod 12
  let doy := (153 * mp + 2).ediv 5 + d - 1
  let doe := yoe * 365 + yoe.ediv 4 - yoe.ediv 100 + doy
  era * 146097 + doe - 719468

/-- Civil-calendar conversion: day count to (year, month, day). -/
def ymd (z0 : ℤ) : ℤ × ℤ × ℤ :=
  let z := z0 + 719468
  let era := z.ediv 146097
  let doe := z - era * 146097
  let yoe := (doe - doe.ediv 1460 + doe.ediv 36524 - doe.ediv 146096).ediv 365
  let y := yoe + era * 400
  let doy := doe - (365 * yoe + yoe.ediv 4 - yoe.ediv 100)
  let mp := (5 * doy + 2).ediv 153
  let d := doy - (153 * mp + 2).ediv 5 + 1
  let m := if mp < 10 then mp + 3 else mp - 9
  (if m ≤ 2 then y + 1 else y, m, d)

/-- Python `d.year`. -/
def yearOf (d : ℤ) : ℤ := (ymd d).1

/-- Python `d.month`. -/
def monthOf (d : ℤ) : ℤ := (ymd d).2.1

/-- Python `base_date.replace(day=1)` (line 103): first day of the month. -/
def replaceDay1 (d : ℤ) : ℤ := toDate (yearOf d) (monthOf d) 1

/-- Lines 95-98: the first day of the month after the month of `d`. -/
def nextMonthFirst (d : ℤ) : ℤ :=
  if monthOf d = 12 then toDate (yearOf d + 1) 1 1
  else toDate (yearOf d) (monthOf d + 1) 1

/-- Helper for `dropDuplicates`: keep the elements not yet seen. -/
def dropDuplicatesAux : List ℤ → List ℤ → List ℤ
  | [], _ => []
  | d :: rest, seen =>
    if d ∈ seen then dropDuplicatesAux rest seen
    else d :: dropDuplicatesAux rest (d :: seen)

/-- Line 64: `pd.Series(price_series.index.date).drop_duplicates()` — the dates
of the series with duplicates removed, keeping the first occurrence. -/
def dropDuplicates (l : List ℤ) : List ℤ := dropDuplicatesAux l []

/-- Lines 69-77: the weekly target date (the previous Friday by weekday rule). -/
def weeklyTarget (b : ℤ) : ℤ :=
  let w := weekday b
  if w = 0 then b - 3
  else if w = 4 then b - 7
  else b - (w + 3).emod 7

/-- Lines 66-67: clamp `base_date` down to the last trading day of the series
if it lies after the series. -/
def clampToSeries (base_date : ℤ) (s : PriceSeries) : ℤ :=
  let lastd := (dropDuplicates (s.map Prod.fst)).getLastD base_date
  if lastd < base_date then lastd else base_date

/-- Lines 61-88, `get_previous_week_last_trading_day`: latest trading day at or
before the weekly target of the (clamped) base date; if no trading day is that
early, the first date of the series.  (On an empty series the Python code
raises inside its own handler; that case, unreachable in every theorem below,
returns the `headI` default.) -/
def get_previous_week_last_trading_day (base_date : ℤ) (s : PriceSeries) : ℤ :=
  let date_index := dropDuplicates (s.map Prod.fst)
  let target := weeklyTarget (clampToSeries base_date s)
  match (date_index.filter (fun x => x ≤ target)).getLast? with
  | some t => t
  | none => (s.map Prod.fst).headI

/-- Lines 102-106: scan one day at a time from `t` downward, `fuel` days in
total, returning the first date that is in `dates`. -/
def scanBack (dates : List ℤ) : ℕ → ℤ → Option ℤ
  | 0, _ => none
  | fuel + 1, t => if t ∈ dates then some t else scanBack dates fuel (t - 1)

/-- Lines 90-112, `get_last_trading_day_of_month`: scan backward from the last
calendar day of the month of `base_date` down to the first day of that month,
returning the first trading day found; if the month has none, the first
(deduplicated) date of the series. -/
def get_last_trading_day_of_month (base_date : ℤ) (s : PriceSeries) : ℤ :=
  let date_index := dropDuplicates (s.map Prod.fst)
  let eom := nextMonthFirst base_date - 1
  let firstDay := replaceDay1 base_date
  (scanBack date_index (eom - firstDay + 1).toNat eom).getD date_index.headI

/-- A rational stand-in for `np.sqrt` on nonnegative floats: exact whenever the
argument is the square of a rational (then it returns that rational), otherwise
a floor approximation.  No theorem below depends on the value of an inexact
square root — only on definedness and on zero versus nonzero, which this
function preserves (`ratSqrt q = 0` iff `q ≤ 0`). -/
def ratSqrt (q : ℚ) : ℚ :=
  if q ≤ 0 then 0 else (Nat.sqrt (q.num.toNat * q.den) : ℚ) / (q.den : ℚ)

/-- Python `series.tail(k)`: the last `k` elements. -/
def tailK (l : List ℚ) (k : ℕ) : List ℚ := l.drop (l.length - k)

/-- Lines 124, 131, 138: `price_series.pct_change().dropna()` — the list of
period-over-period relative changes (the leading NaN of `pct_change` is the
one value removed by `dropna` when all prices are nonzero). -/
def dailyReturns : List ℚ → List ℚ
  | [] => []
  | [_] => []
  | a :: b :: rest => (b - a) / a :: dailyReturns (b :: rest)

/-- Mean of a list of rationals (`0` on the empty list, which is never used). -/
def listMean (l : List ℚ) : ℚ := l.sum / l.length

/-- Sample variance with `ddof = 1`, as used by pandas `.std()` squared. -/
def sampleVariance (l : List ℚ) : ℚ :=
  let m := listMean l
  (l.map (fun x => (x - m) ^ 2)).sum / ((l.length : ℚ) - 1)

/-- pandas `.std()` (sample standard deviation, `ddof = 1`): NaN — modelled as
`none` — on fewer than two values, else the square root of the sample
variance. -/
def std (l : List ℚ) : Option ℚ :=
  if l.length ≤ 1 then none else some (ratSqrt (sampleVariance l))

/-- Lines 120-139: one of the three identical volatility blocks of
`calculate_volatility_and_mdd` for window size `w`: take the trailing
`min(w, len)` prices; if fewer than 2 remain the volatility is `0`, else the
annualized sample standard deviation of the daily returns,
`std * sqrt(252) * 100` (NaN propagates through the products). -/
def window_vol (prices : List ℚ) (w : ℕ) : Option ℚ :=
  let data := tailK prices (min w prices.length)
  if data.length < 2 then some 0
  else (std (dailyReturns data)).map (fun sd => sd * ratSqrt 252 * 100)

/-- Running maximum of a list continuing from an initial maximum `m`. -/
def cummaxFrom (m : ℚ) : List ℚ → List ℚ
  | [] => []
  | a :: rest => max m a :: cummaxFrom (max m a) rest

/-- Line 141: `price_series.cummax()`. -/
def cummax : List ℚ → List ℚ
  | [] => []
  | a :: rest => a :: cummaxFrom a rest

/-- pandas `.min()` over a list (default `0` on the empty list, unused). -/
def listMin : List ℚ → ℚ
  | [] => 0
  | a :: rest => rest.foldl min a

/-- pandas `.max()` over a list (default `0` on the empty list, unused). -/
def listMax : List ℚ → ℚ
  | [] => 0
  | a :: rest => rest.foldl max a

/-- Lines 114-148, `calculate_volatility_and_mdd`: the triple of annualized
volatilities for windows 5 / 22 / 252 plus the maximum drawdown
`min ((price - cummax) / cummax * 100)`; all zeros on a series of fewer than
2 observations. -/
def calculate_volatility_and_mdd (s : PriceSeries) :
    Option ℚ × Option ℚ × Option ℚ × ℚ :=
  if s.length < 2 then (some 0, some 0, some 0, 0)
  else
    let prices := s.map Prod.snd
    let drawdowns := List.zipWith (fun p c => (p - c) / c * 100) prices (cummax prices)
    (window_vol prices 5, window_vol prices 22, window_vol prices 252, listMin drawdowns)

/-- Lines 150-163, `calculate_52week_high_drawdown`: percentage gap between
the last close and the maximum of the trailing (at most) 252 observations;
`0` on a series of fewer than 2 observations. -/
def calculate_52week_high_drawdown (s : PriceSeries) : ℚ :=
  if s.length < 2 then 0
  else
    let prices := s.map Prod.snd
    let high := listMax (tailK prices (min 252 prices.length))
    let current := prices.getLastD 0
    (current - high) / high * 100

/-- Python `series.iloc[i]` with possibly negative index `i`. -/
def iloc (s : PriceSeries) (i : ℤ) : ℤ × ℚ :=
  if i < 0 then s.getD (s.length - i.natAbs) (0, 0) else s.getD i.toNat (0, 0)

/-- Lines 179-194 (the SessionSelector): the pair `(latest_idx, previous_idx)`
of Python indices.  They are `(-2, -3)` exactly when the market is open today
(the series' last date is not before today and the time is at least 09:30),
the time is before 16:00, and the series has more than 2 observations;
otherwise `(-1, -2)`. -/
def selectIndices (s : PriceSeries) (now : Now) : ℤ × ℤ :=
  let lastd := (s.map Prod.fst).getLastD 0
  let last_trading_day := min now.date lastd
  if (last_trading_day = now.date ∧ 570 ≤ now.time) ∧ now.time < 960 ∧ 2 < s.length
  then (-2, -3) else (-1, -2)

/-- Line 190/192/194: `base_date = price_series.index[latest_idx].date()`. -/
def baseDateOf (s : PriceSeries) (now : Now) : ℤ := (iloc s (selectIndices s now).1).1

/-- Line 196: `latest_close = price_series.iloc[latest_idx]`. -/
def latestCloseOf (s : PriceSeries) (now : Now) : ℚ := (iloc s (selectIndices s now).1).2

/-- Line 197: `previous_close`, guarded by `abs(previous_idx) <= len`. -/
def previousCloseOf (s : PriceSeries) (now : Now) : ℚ :=
  let pidx := (selectIndices s now).2
  if pidx.natAbs ≤ s.length then (iloc s pidx).2 else latestCloseOf s now

/-- Lines 200-224 pattern: `data = price_series[price_series.index.date == d];
data.iloc[-1] if not data.empty else fallback`. -/
def resolveClose (s : PriceSeries) (d : ℤ) (fallback : ℚ) : ℚ :=
  match (s.filter (fun p => p.1 = d)).getLast? with
  | some p => p.2
  | none => fallback

/-- Line 229-230: `safe_return`. -/
def safe_return (current base : ℚ) : ℚ :=
  if base ≠ 0 then (current - base) / base * 100 else 0

/-- Line 240: `risk_free_rate = 0.05`. -/
def risk_free_rate : ℚ := 1 / 20

/-- The named values assembled into the tuple returned on the normal path of
`calculate_returns` (lines 175-249).  Possibly-NaN floats (the three
volatilities and the Sharpe ratio) are `Option ℚ`. -/
structure RecordVals where
  latest_close : ℚ
  daily_return : ℚ
  weekly_return : ℚ
  monthly_return : ℚ
  ytd_return : ℚ
  days_22_return : ℚ
  days_132_return : ℚ
  days_264_return : ℚ
  ultra_short_term_vol : Option ℚ
  short_term_vol : Option ℚ
  long_term_vol : Option ℚ
  mdd : ℚ
  drawdown_from_high : ℚ
  sharpe : Option ℚ
  base_date : ℤ
  weekly_base_date : ℤ
  monthly_base_date : ℤ
deriving DecidableEq

/-- Lines 175-249: the normal-path computation of `calculate_returns`. -/
def calcVals (s : PriceSeries) (now : Now) : RecordVals :=
  let base_date := baseDateOf s now
  let latest_close := latestCloseOf s now
  let previous_close := previousCloseOf s now
  let weekly_base_date := get_previous_week_last_trading_day base_date s
  let weekly_base_close := resolveClose s weekly_base_date latest_close
  let last_month := replaceDay1 base_date - 1
  let monthly_base_date := get_last_trading_day_of_month last_month s
  let monthly_base_close := resolveClose s monthly_base_date latest_close
  let last_year := toDate (yearOf base_date - 1) 12 31
  let ytd_base_date := get_last_trading_day_of_month last_year s
  let ytd_base_close := resolveClose s ytd_base_date latest_close
  let days_22_date := get_previous_week_last_trading_day (base_date - 22) s
  let days_132_date := get_previous_week_last_trading_day (base_date - 132) s
  let days_264_date := get_previous_week_last_trading_day (base_date - 264) s
  let days_22_close := resolveClose s days_22_date latest_close
  let days_132_close := resolveClose s days_132_date latest_close
  let days_264_close := resolveClose s days_264_date latest_close
  let vols := calculate_volatility_and_mdd s
  let days_264_return := safe_return latest_close days_264_close
  let sharpe : Option ℚ :=
    vols.2.2.1.map (fun v => if v ≠ 0 then (days_264_return - risk_free_rate) / v else 0)
  { latest_close := latest_close
    daily_return := safe_return latest_close previous_close
    weekly_return := safe_return latest_close weekly_base_close
    monthly_return := safe_return latest_close monthly_base_close
    ytd_return := safe_return latest_close ytd_base_close
    days_22_return := safe_return latest_close days_22_close
    days_132_return := safe_return latest_close days_132_close
    days_264_return := days_264_return
    ultra_short_term_vol := vols.1
    short_term_vol := vols.2.1
    long_term_vol := vols.2.2.1
    mdd := vols.2.2.2
    drawdown_from_high := calculate_52week_high_drawdown s
    sharpe := sharpe
    base_date := base_date
    weekly_base_date := weekly_base_date
    monthly_base_date := monthly_base_date }

/-- One entry of the positional result tuple of `calculate_returns`: a numeric
field (possibly NaN, modelled `none`) or a formatted date string. -/
inductive Cell where
  | num (v : Option ℚ) : Cell
  | date (d : ℤ) : Cell
deriving DecidableEq

/-- The 17-entry tuple of lines 244-249, in positional order. -/
def recordToList (r : RecordVals) : List Cell :=
  [Cell.num (some r.latest_close), Cell.num (some r.daily_return),
   Cell.num (some r.weekly_return), Cell.num (some r.monthly_return),
   Cell.num (some r.ytd_return), Cell.num (some r.days_22_return),
   Cell.num (some r.days_132_return), Cell.num (some r.days_264_return),
   Cell.num r.ultra_short_term_vol, Cell.num r.short_term_vol,
   Cell.num r.long_term_vol, Cell.num (some r.mdd),
   Cell.num (some r.drawdown_from_high), Cell.num r.sharpe,
   Cell.date r.base_date, Cell.date r.weekly_base_date,
   Cell.date r.monthly_base_date]

/-- Lines 165-255, `calculate_returns`: the insufficient-data branch of lines
168-173 returns its literal tuple of fifteen zeros and three date strings; the
normal path returns the 17-entry tuple of lines 244-249. -/
def calculate_returns (s : PriceSeries) (now : Now) : List Cell :=
  if s.length < 2 then
    List.replicate 15 (Cell.num (some 0)) ++
      [Cell.date now.date, Cell.date now.date, Cell.date now.date]
  else recordToList (calcVals s now)

/-- Lines 250-255: the literal tuple returned by the `except` handler of
`calculate_returns` — fourteen zeros and three date strings.  (In this total
embedding no exception can occur; the claim about this branch concerns the
literal record it would return.) -/
def exception_fallback (now : Now) : List Cell :=
  List.replicate 14 (Cell.num (some 0)) ++
    [Cell.date now.date, Cell.date now.date, Cell.date now.date]

/-! Concrete inputs used by witnesses and counterexamples.  Day counts:
19730 = 2024-01-08 (a Monday), 19731 = 2024-01-09, 19735 = 2024-01-13
(a Saturday); time 600 = 10:00. -/

/-- A two-observation series: closes 100 and 110 on 2024-01-08/09. -/
def twoObsSeries : PriceSeries := [(19730, 100), (19731, 110)]

/-- A wall clock on a later Saturday (market closed), 10:00. -/
def satNow : Now := ⟨19735, 600⟩

/-- A wall clock on the series' last trading day, mid-session (10:00). -/
def sessionNow : Now := ⟨19731, 600⟩

/-- A four-observation series whose daily returns are 1%, 2% and -3%: the
sample variance of the long-term window is exactly 7/10000. -/
def sharpeSeries : PriceSeries :=
  [(19727, 100), (19730, 101), (19731, 5151/50), (19732, 499647/5000)]

/-- A four-observation series of constant closes: all volatilities are 0. -/
def constSeries : PriceSeries := [(19727, 100), (19730, 100), (19731, 100), (19732, 100)]

section Helpers

variable {α : Type}

/-- The value delivered by `getLast?` is a member of the list. -/
lemma mem_of_getLast?_eq {l : List α} {a : α} (h : l.getLast? = some a) : a ∈ l := by
  by_cases hne : l = []
  · subst hne; simp at h
  · rw [List.getLast?_eq_getLast l hne] at h
    obtain rfl : l.getLast hne = a := Option.some.inj h
    exact List.getLast_mem hne

/-- The head (with default) of a nonempty list is a member. -/
lemma headI_mem_of_ne_nil [Inhabited α] {l : List α} (h : l ≠ []) : l.headI ∈ l := by
  cases l with
  | nil => exact absurd rfl h
  | cons x xs => exact List.mem_cons_self _ _

/-- Membership in the deduplication helper. -/
lemma mem_dropDuplicatesAux {a : ℤ} :
    ∀ {l seen : List ℤ}, a ∈ dropDuplicatesAux l seen ↔ a ∈ l ∧ a ∉ seen := by
  intro l
  induction l with
  | nil => intro seen; simp [dropDuplicatesAux]
  | cons d rest ih =>
    intro seen
    rw [dropDuplicatesAux]
    by_cases hd : d ∈ seen
    · rw [if_pos hd, ih]
      constructor
      · rintro ⟨h1, h2⟩; exact ⟨List.mem_cons_of_mem _ h1, h2⟩
      · rintro ⟨h1, h2⟩
        rcases List.mem_cons.mp h1 with rfl | h1
        · exact absurd hd h2
        · exact ⟨h1, h2⟩
    · rw [if_neg hd]
      simp only [List.mem_cons, ih, List.mem_cons]
      constructor
      · rintro (rfl | ⟨h1, h2⟩)
        · exact ⟨Or.inl rfl, hd⟩
        · exact ⟨Or.inr h1, fun hs => h2 (Or.inr hs)⟩
      · rintro ⟨rfl | h1, h2⟩
        · exact Or.inl rfl
        · by_cases hda : a = d
          · exact Or.inl hda
          · exact Or.inr ⟨h1, fun hs => by
              rcases hs with hs | hs
              · exact hda hs
              · exact h2 hs⟩

/-- Deduplication preserves membership. -/
lemma mem_dropDuplicates {l : List ℤ} {a : ℤ} : a ∈ dropDuplicates l ↔ a ∈ l := by
  rw [dropDuplicates, mem_dropDuplicatesAux]
  simp

/-- Specification of the backward day-scan: when some member of `dates` lies in
the scanned window `(t - k, t]`, the scan succeeds and returns a member of
`dates` that is the greatest one at or below `t`. -/
lemma scanBack_spec (dates : List ℤ) :
    ∀ (k : ℕ) (t : ℤ), (∃ d ∈ dates, t - k < d ∧ d ≤ t) →
      ∃ r, scanBack dates k t = some r ∧ r ∈ dates ∧ t - k < r ∧ r ≤ t ∧
        ∀ d ∈ dates, d ≤ t → d ≤ r := by
  intro k
  induction k with
  | zero =>
    intro t h
    exfalso
    obtain ⟨d, _, h1, h2⟩ := h
    simp at h1
    omega
  | succ k ih =>
    intro t h
    rw [scanBack]
    by_cases ht : t ∈ dates
    · refine ⟨t, by simp [ht], ht, ?_, le_refl t, fun d _ hd => hd⟩
      have : (0 : ℤ) < (k : ℤ) + 1 := by positivity
      push_cast
      omega
    · obtain ⟨d, hdm, h1, h2⟩ := h
      have hdt : d ≤ t - 1 := by
        rcases lt_or_eq_of_le h2 with h | h
        · omega
        · exact absurd (h ▸ hdm) ht
      obtain ⟨r, hr, hrm, hr1, hr2, hrmax⟩ := ih (t - 1)
        ⟨d, hdm, by push_cast at h1 ⊢; omega, hdt⟩
      refine ⟨r, by simp [ht, hr], hrm, by push_cast at hr1 ⊢; omega, by omega, ?_⟩
      intro e hem het
      have : e ≤ t - 1 := by
        rcases lt_or_eq_of_le het with h | h
        · omega
        · exact absurd (h ▸ hem) ht
      exact hrmax e hem this

/-- The list produced by `dailyReturns` has one fewer element than its input. -/
lemma dailyReturns_length : ∀ l : List ℚ, (dailyReturns l).length = l.length - 1
  | [] => rfl
  | [_] => rfl
  | a :: b :: rest => by
    rw [dailyReturns]
    have := dailyReturns_length (b :: rest)
    simp only [List.length_cons] at this ⊢
    omega

/-- Length of the trailing window. -/
lemma tailK_length (l : List ℚ) (k : ℕ) : (tailK l k).length = min k l.length := by
  rw [tailK, List.length_drop]
  omega

/-- A left fold by `min` never exceeds its initial value. -/
lemma foldl_min_le_init (l : List ℚ) : ∀ a : ℚ, l.foldl min a ≤ a := by
  induction l with
  | nil => intro a; simp
  | cons x xs ih =>
    intro a
    calc (x :: xs).foldl min a = xs.foldl min (min a x) := rfl
    _ ≤ min a x := ih (min a x)
    _ ≤ a := min_le_left _ _

/-- If every element of the list is nonpositive, so is `listMin`. -/
lemma listMin_nonpos {l : List ℚ} (h : ∀ x ∈ l, x ≤ 0) : listMin l ≤ 0 := by
  cases l with
  | nil => simp [listMin]
  | cons a rest =>
    have := foldl_min_le_init rest a
    have ha := h a (List.mem_cons_self _ _)
    calc listMin (a :: rest) = rest.foldl min a := rfl
    _ ≤ a := this
    _ ≤ 0 := ha

/-- The initial value bounds a left fold by `max` from below. -/
lemma init_le_foldl_max (l : List ℚ) : ∀ a : ℚ, a ≤ l.foldl max a := by
  induction l with
  | nil => intro a; simp
  | cons x xs ih =>
    intro a
    calc a ≤ max a x := le_max_left _ _
    _ ≤ xs.foldl max (max a x) := ih (max a x)
    _ = (x :: xs).foldl max a := rfl

/-- Every member of the list bounds a left fold by `max` from below. -/
lemma mem_le_foldl_max {l : List ℚ} {x : ℚ} (h : x ∈ l) : ∀ a : ℚ, x ≤ l.foldl max a := by
  induction l with
  | nil => exact absurd h (List.not_mem_nil _)
  | cons y ys ih =>
    intro a
    rcases List.mem_cons.mp h with rfl | h
    · calc x ≤ max a x := le_max_right _ _
      _ ≤ ys.foldl max (max a x) := init_le_foldl_max _ _
      _ = (x :: ys).foldl max a := rfl
    · exact ih h (max a y)

/-- Every member of a list is at most its `listMax`. -/
lemma mem_le_listMax {l : List ℚ} {x : ℚ} (h : x ∈ l) : x ≤ listMax l := by
  cases l with
  | nil => exact absurd h (List.not_mem_nil _)
  | cons a rest =>
    rcases List.mem_cons.mp h with rfl | h
    · exact init_le_foldl_max rest x
    · exact mem_le_foldl_max h a

/-- The `listMax` of a nonempty list of positive numbers is positive. -/
lemma listMax_pos {l : List ℚ} (hne : l ≠ []) (h : ∀ x ∈ l, 0 < x) : 0 < listMax l := by
  cases l with
  | nil => exact absurd rfl hne
  | cons a rest =>
    calc (0 : ℚ) < a := h a (List.mem_cons_self _ _)
    _ ≤ listMax (a :: rest) := mem_le_listMax (List.mem_cons_self _ _)

/-- `getLastD` of a nonempty list is a member. -/
lemma getLastD_mem_of_ne_nil {l : List α} {d : α} (h : l ≠ []) : l.getLastD d ∈ l := by
  rw [List.getLastD_eq_getLast?, List.getLast?_eq_getLast l h]
  exact List.getLast_mem h

/-- Dropping fewer than all elements does not change the last element. -/
lemma getLastD_drop {l : List α} {d : α} : ∀ {n : ℕ}, n < l.length →
    (l.drop n).getLastD d = l.getLastD d := by
  induction l with
  | nil => intro n h; simp at h
  | cons a rest ih =>
    intro n h
    cases n with
    | zero => simp
    | succ m =>
      have hm : m < rest.length := by simpa using h
      rw [List.drop_succ_cons, ih hm]
      cases rest with
      | nil => simp at hm
      | cons b bs => simp

/-- Every drawdown entry against a running maximum that starts positive is
nonpositive when all prices are positive. -/
lemma zip_drawdown_nonpos {m : ℚ} {l : List ℚ} (hm : 0 < m) (hl : ∀ x ∈ l, 0 < x) :
    ∀ y ∈ List.zipWith (fun p c => (p - c) / c * 100) l (cummaxFrom m l), y ≤ 0 := by
  induction l generalizing m with
  | nil => intro y hy; simp [cummaxFrom] at hy
  | cons a rest ih =>
    intro y hy
    rw [cummaxFrom, List.zipWith_cons_cons] at hy
    rcases List.mem_cons.mp hy with rfl | hy
    · have hM : 0 < max m a := lt_max_of_lt_left hm
      have hnum : a - max m a ≤ 0 := sub_nonpos.mpr (le_max_right _ _)
      have : (a - max m a) / max m a ≤ 0 := div_nonpos_iff.mpr (Or.inr ⟨hnum, le_of_lt hM⟩)
      calc (a - max m a) / max m a * 100 ≤ 0 * 100 := by
            exact mul_le_mul_of_nonneg_right this (by norm_num)
      _ = 0 := by ring
    · exact ih (lt_max_of_lt_left hm) (fun x hx => hl x (List.mem_cons_of_mem _ hx)) y hy

/-- The annualized volatility of a window of size at least 3 over a series of
at least 3 prices is a number (not NaN): the window then holds at least 3
prices, hence at least 2 returns, and a sample standard deviation of at least
2 values is defined. -/
lemma window_vol_isSome (prices : List ℚ) (w : ℕ) (h3 : 3 ≤ prices.length)
    (hw : 3 ≤ w) : (window_vol prices w).isSome := by
  rw [window_vol]
  by_cases hc : (tailK prices (min w prices.length)).length < 2
  · rw [if_pos hc]; simp
  · rw [if_neg hc]
    have hlen : (tailK prices (min w prices.length)).length = min w prices.length := by
      rw [tailK_length]; omega
    have hdr : 2 ≤ (dailyReturns (tailK prices (min w prices.length))).length := by
      rw [dailyReturns_length, hlen]; omega
    rw [std, if_neg (by omega)]
    simp

/-- Unless the series has exactly 2 observations, all three volatilities are
numbers (not NaN). -/
lemma vols_isSome (s : PriceSeries) (h : s.length ≠ 2) :
    (calculate_volatility_and_mdd s).1.isSome ∧
    (calculate_volatility_and_mdd s).2.1.isSome ∧
    (calculate_volatility_and_mdd s).2.2.1.isSome := by
  by_cases h2 : s.length < 2
  · rw [calculate_volatility_and_mdd, if_pos h2]; simp
  · have h3 : 3 ≤ (s.map Prod.snd).length := by rw [List.length_map]; omega
    rw [calculate_volatility_and_mdd, if_neg h2]
    exact ⟨window_vol_isSome _ 5 h3 (by norm_num),
      window_vol_isSome _ 22 h3 (by norm_num), window_vol_isSome _ 252 h3 (by norm_num)⟩

/-- The Sharpe field is the long-term volatility mapped through the Sharpe
formula of lines 240-242 (with the code's `risk_free_rate = 0.05`); NaN
propagates as `none`. -/
lemma calcVals_sharpe_eq (s : PriceSeries) (now : Now) :
    (calcVals s now).sharpe = ((calcVals s now).long_term_vol).map
      (fun v => if v ≠ 0 then ((calcVals s now).days_264_return - risk_free_rate) / v
                else 0) := rfl

/-- When the long-term volatility is a number, so is the Sharpe field. -/
lemma sharpe_isSome_of_lv (s : PriceSeries) (now : Now)
    (h : (calculate_volatility_and_mdd s).2.2.1.isSome) : (calcVals s now).sharpe.isSome := by
  obtain ⟨w, hw⟩ := Option.isSome_iff_exists.mp h
  have hlv : (calcVals s now).long_term_vol = (calculate_volatility_and_mdd s).2.2.1 := rfl
  rw [calcVals_sharpe_eq, hlv, hw]
  simp

end Helpers

/-- C8: `safe_return` returns `0` when the base is `0`, and the percentage
return `(current - base) / base * 100` otherwise — the division is never
performed with a zero base.  All seven return fields of `calculate_returns`
are produced by this function (lines 232-238). -/
theorem safe_return_spec (current base : ℚ) :
    (base = 0 → safe_return current base = 0) ∧
    (base ≠ 0 → safe_return current base = (current - base) / base * 100) := by
  constructor
  · intro h; simp [safe_return, h]
  · intro h; simp [safe_return, h]

/-- Witness for C8 at the concrete pairs (5, 0) and (110, 100). -/
theorem safe_return_spec_witness :
    safe_return 5 0 = 0 ∧ safe_return 110 100 = 10 := by
  constructor
  · exact (safe_return_spec 5 0).1 rfl
  · rw [(safe_return_spec 110 100).2 (by norm_num)]; norm_num

/-- C10: for a series of at least 2 observations the out-of-range guard of
line 197 never fires: the previous index (-3 only when the series has more
than 2 observations, -2 otherwise) always lies within the series, so
`previous_close` is the observation at that index, never the substituted
`latest_close`. -/
theorem previous_index_in_range (s : PriceSeries) (now : Now) (h2 : 2 ≤ s.length) :
    ((selectIndices s now).2).natAbs ≤ s.length ∧
    previousCloseOf s now = (iloc s (selectIndices s now).2).2 := by
  have hsel : (selectIndices s now).2 = -3 ∧ 2 < s.length ∨ (selectIndices s now).2 = -2 := by
    rw [selectIndices]
    split
    case isTrue h => exact Or.inl ⟨rfl, h.2.2⟩
    case isFalse h => exact Or.inr rfl
  have hle : ((selectIndices s now).2).natAbs ≤ s.length := by
    rcases hsel with ⟨he, hlen⟩ | he <;> rw [he] <;> simp <;> omega
  refine ⟨hle, ?_⟩
  rw [previousCloseOf, if_pos hle]

/-- Witness for C10 on the two-observation series during the session. -/
theorem previous_index_in_range_witness :
    2 ≤ twoObsSeries.length ∧
    ((selectIndices twoObsSeries sessionNow).2).natAbs ≤ twoObsSeries.length ∧
    previousCloseOf twoObsSeries sessionNow = (iloc twoObsSeries (selectIndices twoObsSeries sessionNow).2).2 :=
  ⟨by decide, previous_index_in_range twoObsSeries sessionNow (by decide)⟩

/-- C7: for a series of at least 2 observations whose last trading day is not
after today, the selected index pair is `(-2, -3)` (second-to-last as latest,
third-to-last as previous) exactly when the last trading day equals today,
the time is in [09:30, 16:00), and the series has more than 2 observations;
in every other case it is `(-1, -2)`; and the base date is the calendar date
of the observation selected as latest. -/
theorem session_selector_spec (s : PriceSeries) (now : Now) (h2 : 2 ≤ s.length)
    (hle : (s.map Prod.fst).getLastD 0 ≤ now.date) :
    selectIndices s now =
      (if (s.map Prod.fst).getLastD 0 = now.date ∧ 570 ≤ now.time ∧ now.time < 960 ∧ 2 < s.length
       then (-2, -3) else (-1, -2)) ∧
    baseDateOf s now = (iloc s (selectIndices s now).1).1 ∧
    latestCloseOf s now = (iloc s (selectIndices s now).1).2 := by
  refine ⟨?_, rfl, rfl⟩
  have hmin : (min now.date ((s.map Prod.fst).getLastD 0) = now.date) =
      ((s.map Prod.fst).getLastD 0 = now.date) := by
    rw [min_eq_right hle]
  simp only [selectIndices, hmin, and_assoc]

/-- Witness for C7: during the session on the series' last trading day with
only 2 observations, the last observation stays selected as latest. -/
theorem session_selector_spec_witness :
    (2 ≤ twoObsSeries.length ∧ (twoObsSeries.map Prod.fst).getLastD 0 ≤ sessionNow.date) ∧
    (selectIndices twoObsSeries sessionNow =
      (if (twoObsSeries.map Prod.fst).getLastD 0 = sessionNow.date ∧ 570 ≤ sessionNow.time ∧
          sessionNow.time < 960 ∧ 2 < twoObsSeries.length
       then (-2, -3) else (-1, -2)) ∧
     baseDateOf twoObsSeries sessionNow = (iloc twoObsSeries (selectIndices twoObsSeries sessionNow).1).1 ∧
     latestCloseOf twoObsSeries sessionNow = (iloc twoObsSeries (selectIndices twoObsSeries sessionNow).1).2) :=
  ⟨⟨by decide, by decide⟩, session_selector_spec twoObsSeries sessionNow (by decide) (by decide)⟩

/-- C1 (code bug): the insufficient-data fallback tuple of lines 170-173 has
15 zeros before its three date strings — 18 entries — while the exception
fallback of lines 252-255 has 14 zeros — 17 entries, the arity of the normal
record of lines 244-249 and of the 17 columns unpacked at lines 296-301.  The
two fallback records are therefore not the same record, contradicting the
claim; the extra zero of the insufficient-data tuple shifts its date fields
out of their columns. -/
theorem fallback_records_differ :
    (calculate_returns [(19731, 100)] satNow).length = 18 ∧
    (exception_fallback satNow).length = 17 ∧
    (calculate_returns twoObsSeries satNow).length = 17 ∧
    calculate_returns [(19731, 100)] satNow ≠ exception_fallback satNow := by
  refine ⟨by rfl, by rfl, ?_, ?_⟩
  · rw [calculate_returns, if_neg (by decide), recordToList]
    rfl
  · intro h
    have := congrArg List.length h
    simp only [calculate_returns] at this
    norm_num [exception_fallback] at this

/-- C2 (counterexample): on a series of exactly 2 observations every
volatility window holds 2 prices, hence a single return, whose sample
standard deviation (ddof = 1) is NaN; position 8 of the returned record (the
ultra-short volatility) is NaN, not a finite number and not the sentinel 0 —
the claimed invariant fails. -/
theorem two_obs_record_has_nan :
    (calculate_returns twoObsSeries satNow).get? 8 = some (Cell.num none) ∧
    (calcVals twoObsSeries satNow).sharpe = none := by
  constructor
  · rw [calculate_returns, if_neg (by decide), recordToList]
    have h8 : (calcVals twoObsSeries satNow).ultra_short_term_vol = none := by decide
    simp [h8]
  · decide

/-- C2 (amended): for every series that does not have exactly 2 observations
and has positive prices, every numeric field of the record returned by
`calculate_returns` is an actual number (never NaN): the insufficient-data
branch returns literal zeros, and with at least 3 observations every
volatility window holds at least 2 returns, so the standard deviations — the
only NaN source — are defined. -/
theorem numeric_fields_never_nan (s : PriceSeries) (now : Now) (hlen : s.length ≠ 2)
    (hpos : ∀ p ∈ s, 0 < p.2) :
    ∀ c ∈ calculate_returns s now, ∀ v, c = Cell.num v → v ≠ none := by
  intro c hc v hv
  subst hv
  by_cases h2 : s.length < 2
  · rw [calculate_returns, if_pos h2] at hc
    rcases List.mem_append.mp hc with h | h
    · have := List.eq_of_mem_replicate h
      injection this with h2
      rw [h2]
      simp
    · simp at h
  · rw [calculate_returns, if_neg h2, recordToList] at hc
    obtain ⟨hu, hs, hl⟩ := vols_isSome s hlen
    have hsh : (calcVals s now).sharpe.isSome := sharpe_isSome_of_lv s now hl
    have hne : ∀ o : Option ℚ, o.isSome → o ≠ none := by
      intro o ho hn
      rw [hn] at ho
      simp at ho
    have hu2 : (calcVals s now).ultra_short_term_vol ≠ none := hne _ hu
    have hs2 : (calcVals s now).short_term_vol ≠ none := hne _ hs
    have hl2 : (calcVals s now).long_term_vol ≠ none := hne _ hl
    have hsh2 : (calcVals s now).sharpe ≠ none := hne _ hsh
    simp only [List.mem_cons, List.not_mem_nil, or_false] at hc
    rcases hc with h|h|h|h|h|h|h|h|h|h|h|h|h|h|h|h|h <;>
      simp only [Cell.num.injEq, reduceCtorEq] at h <;> subst h <;>
      first
      | exact hu2
      | exact hs2
      | exact hl2
      | exact hsh2
      | simp

/-- C4 (counterexample): on a series whose first trading day lies after the
weekly target — here a single observation on Monday 2024-01-08 with target the
previous Friday 2024-01-05 — `get_previous_week_last_trading_day` returns the
series' first date, which is after the target, refuting the claim that the
result is always ≤ the computed weekly target. -/
theorem prev_week_exceeds_target :
    get_previous_week_last_trading_day 19730 [(19730, 100)] = 19730 ∧
    weeklyTarget (clampToSeries 19730 [(19730, 100)]) = 19727 ∧
    ¬(get_previous_week_last_trading_day 19730 [(19730, 100)] ≤
        weeklyTarget (clampToSeries 19730 [(19730, 100)])) :=
  ⟨by decide, by decide, by decide⟩

/-- C4 (amended): for every base date and nonempty series the returned date is
present in the series, and it is ≤ the computed weekly target whenever any
trading day at or before the target exists; otherwise the function falls back
to the series' first date (which is then after the target). -/
theorem prev_week_mem_and_le_target (base : ℤ) (s : PriceSeries) (hs : s ≠ []) :
    get_previous_week_last_trading_day base s ∈ s.map Prod.fst ∧
    ((∃ d ∈ s.map Prod.fst, d ≤ weeklyTarget (clampToSeries base s)) →
      get_previous_week_last_trading_day base s ≤ weeklyTarget (clampToSeries base s)) := by
  constructor
  · simp only [get_previous_week_last_trading_day]
    cases hlast : ((dropDuplicates (s.map Prod.fst)).filter
        (fun x => x ≤ weeklyTarget (clampToSeries base s))).getLast? with
    | none =>
      simp only [hlast]
      exact headI_mem_of_ne_nil (fun h => hs (List.map_eq_nil.mp h))
    | some r =>
      simp only [hlast]
      exact mem_dropDuplicates.mp (List.mem_of_mem_filter (mem_of_getLast?_eq hlast))
  · rintro ⟨d, hd, hdt⟩
    simp only [get_previous_week_last_trading_day]
    cases hlast : ((dropDuplicates (s.map Prod.fst)).filter
        (fun x => x ≤ weeklyTarget (clampToSeries base s))).getLast? with
    | none =>
      exfalso
      have hmem : d ∈ (dropDuplicates (s.map Prod.fst)).filter
          (fun x => x ≤ weeklyTarget (clampToSeries base s)) :=
        List.mem_filter.mpr ⟨mem_dropDuplicates.mpr hd, by simpa using hdt⟩
      exact List.ne_nil_of_mem hmem (List.getLast?_eq_none_iff.mp hlast)
    | some r =>
      simp only [hlast]
      have := (List.mem_filter.mp (mem_of_getLast?_eq hlast)).2
      simpa using this

/-- Witness for the amended C4: base Saturday 2024-01-13, series with trading
days 2024-01-05 and 2024-01-09; the clamped base is Tuesday 01-09, the target
the Friday 01-05, and a trading day at the target exists. -/
theorem prev_week_mem_and_le_target_witness :
    (([(19727, 100), (19731, (110 : ℚ))] : PriceSeries) ≠ []) ∧
    (get_previous_week_last_trading_day 19735 [(19727, 100), (19731, 110)] ∈
      ([(19727, 100), (19731, (110 : ℚ))] : PriceSeries).map Prod.fst ∧
     ((∃ d ∈ ([(19727, 100), (19731, (110 : ℚ))] : PriceSeries).map Prod.fst,
         d ≤ weeklyTarget (clampToSeries 19735 [(19727, 100), (19731, 110)])) →
       get_previous_week_last_trading_day 19735 [(19727, 100), (19731, 110)] ≤
         weeklyTarget (clampToSeries 19735 [(19727, 100), (19731, 110)]))) :=
  ⟨by decide, prev_week_mem_and_le_target 19735 _ (by decide)⟩

/-- C6: whenever the month of the base date contains a trading day of the
series, `get_last_trading_day_of_month` returns a date within that month that
is a trading day of the series, and indeed the latest trading day within the
month (the first found scanning backward from the month's last calendar
day). -/
theorem last_trading_day_of_month_spec (base : ℤ) (s : PriceSeries)
    (h : ∃ d ∈ s.map Prod.fst, replaceDay1 base ≤ d ∧ d ≤ nextMonthFirst base - 1) :
    replaceDay1 base ≤ get_last_trading_day_of_month base s ∧
    get_last_trading_day_of_month base s ≤ nextMonthFirst base - 1 ∧
    get_last_trading_day_of_month base s ∈ s.map Prod.fst ∧
    ∀ d ∈ s.map Prod.fst, replaceDay1 base ≤ d → d ≤ nextMonthFirst base - 1 →
      d ≤ get_last_trading_day_of_month base s := by
  obtain ⟨d0, hd0, hdf, hde⟩ := h
  have hk : (((nextMonthFirst base - 1) - replaceDay1 base + 1).toNat : ℤ) =
      (nextMonthFirst base - 1) - replaceDay1 base + 1 :=
    Int.toNat_of_nonneg (by linarith)
  obtain ⟨r, hr, hrm, hr1, hr2, hrmax⟩ :=
    scanBack_spec (dropDuplicates (s.map Prod.fst))
      ((nextMonthFirst base - 1) - replaceDay1 base + 1).toNat (nextMonthFirst base - 1)
      ⟨d0, mem_dropDuplicates.mpr hd0, by rw [hk]; linarith, hde⟩
  have hres : get_last_trading_day_of_month base s = r := by
    simp only [get_last_trading_day_of_month]
    rw [hr, Option.getD_some]
  rw [hk] at hr1
  refine ⟨by rw [hres]; linarith, by rw [hres]; exact hr2,
    by rw [hres]; exact mem_dropDuplicates.mp hrm, ?_⟩
  intro d hd hdf2 hde2
  rw [hres]
  exact hrmax d (mem_dropDuplicates.mpr hd) hde2

/-- Witness for C6: base Saturday 2024-01-13 and the two-observation series
with trading days 2024-01-08/09 in the same month. -/
theorem last_trading_day_of_month_spec_witness :
    (∃ d ∈ twoObsSeries.map Prod.fst,
      replaceDay1 19735 ≤ d ∧ d ≤ nextMonthFirst 19735 - 1) ∧
    (replaceDay1 19735 ≤ get_last_trading_day_of_month 19735 twoObsSeries ∧
     get_last_trading_day_of_month 19735 twoObsSeries ≤ nextMonthFirst 19735 - 1 ∧
     get_last_trading_day_of_month 19735 twoObsSeries ∈ twoObsSeries.map Prod.fst ∧
     ∀ d ∈ twoObsSeries.map Prod.fst, replaceDay1 19735 ≤ d →
       d ≤ nextMonthFirst 19735 - 1 → d ≤ get_last_trading_day_of_month 19735 twoObsSeries) :=
  ⟨by decide, last_trading_day_of_month_spec 19735 twoObsSeries (by decide)⟩

/-- Every entry of the drawdown series of line 142 is nonpositive when all
prices are positive. -/
lemma drawdowns_nonpos (prices : List ℚ) (hp : ∀ x ∈ prices, 0 < x) :
    ∀ y ∈ List.zipWith (fun p c => (p - c) / c * 100) prices (cummax prices), y ≤ 0 := by
  cases prices with
  | nil => intro y hy; simp [cummax] at hy
  | cons a rest =>
    intro y hy
    rw [cummax, List.zipWith_cons_cons] at hy
    rcases List.mem_cons.mp hy with rfl | hy
    · simp
    · exact zip_drawdown_nonpos (hp a (List.mem_cons_self _ _))
        (fun x hx => hp x (List.mem_cons_of_mem _ hx)) y hy

/-- C9: for every series of positive prices, the maximum drawdown (the minimum
of the running-maximum drawdown series) is ≤ 0, and the 52-week-high drawdown
(latest close against the trailing up-to-252-observation maximum) is ≤ 0. -/
theorem mdd_and_52w_drawdown_nonpositive (s : PriceSeries) (hpos : ∀ p ∈ s, 0 < p.2) :
    (calculate_volatility_and_mdd s).2.2.2 ≤ 0 ∧ calculate_52week_high_drawdown s ≤ 0 := by
  have hpp : ∀ x ∈ s.map Prod.snd, 0 < x := by
    intro x hx
    obtain ⟨p, hp, rfl⟩ := List.mem_map.mp hx
    exact hpos p hp
  constructor
  · by_cases h2 : s.length < 2
    · simp [calculate_volatility_and_mdd, if_pos h2]
    · simp only [calculate_volatility_and_mdd, if_neg h2]
      exact listMin_nonpos (drawdowns_nonpos _ hpp)
  · by_cases h2 : s.length < 2
    · simp [calculate_52week_high_drawdown, if_pos h2]
    · simp only [calculate_52week_high_drawdown, if_neg h2]
      have hlen : 2 ≤ (s.map Prod.snd).length := by rw [List.length_map]; omega
      have htne : tailK (s.map Prod.snd) (min 252 (s.map Prod.snd).length) ≠ [] := by
        have := tailK_length (s.map Prod.snd) (min 252 (s.map Prod.snd).length)
        intro hnil
        rw [hnil] at this
        simp at this
        omega
      have hlast : (tailK (s.map Prod.snd) (min 252 (s.map Prod.snd).length)).getLastD 0 =
          (s.map Prod.snd).getLastD 0 := by
        apply getLastD_drop
        omega
      have hcur : (s.map Prod.snd).getLastD 0 ∈
          tailK (s.map Prod.snd) (min 252 (s.map Prod.snd).length) := by
        rw [← hlast]
        exact getLastD_mem_of_ne_nil htne
      have hch : (s.map Prod.snd).getLastD 0 ≤
          listMax (tailK (s.map Prod.snd) (min 252 (s.map Prod.snd).length)) :=
        mem_le_listMax hcur
      have hh : 0 < listMax (tailK (s.map Prod.snd) (min 252 (s.map Prod.snd).length)) :=
        listMax_pos htne (fun x hx => hpp x (List.mem_of_mem_drop hx))
      have hdiv : ((s.map Prod.snd).getLastD 0 -
          listMax (tailK (s.map Prod.snd) (min 252 (s.map Prod.snd).length))) /
          listMax (tailK (s.map Prod.snd) (min 252 (s.map Prod.snd).length)) ≤ 0 :=
        div_nonpos_iff.mpr (Or.inr ⟨sub_nonpos.mpr hch, hh.le⟩)
      calc ((s.map Prod.snd).getLastD 0 -
          listMax (tailK (s.map Prod.snd) (min 252 (s.map Prod.snd).length))) /
          listMax (tailK (s.map Prod.snd) (min 252 (s.map Prod.snd).length)) * 100
          ≤ 0 * 100 := mul_le_mul_of_nonneg_right hdiv (by norm_num)
        _ = 0 := by ring

/-- Witness for C9 on the spec's own scenario series [100, 90, 80, 100]. -/
theorem mdd_and_52w_drawdown_nonpositive_witness :
    (∀ p ∈ ([(0, 100), (1, 90), (2, 80), (3, (100 : ℚ))] : PriceSeries), 0 < p.2) ∧
    ((calculate_volatility_and_mdd [(0, 100), (1, 90), (2, 80), (3, 100)]).2.2.2 ≤ 0 ∧
     calculate_52week_high_drawdown [(0, 100), (1, 90), (2, 80), (3, 100)] ≤ 0) :=
  ⟨by norm_num, mdd_and_52w_drawdown_nonpositive _ (by norm_num)⟩

/-- Witness for the amended C2 on a 3-observation positive series. -/
theorem numeric_fields_never_nan_witness :
    (([(19730, 100), (19731, 110), (19732, (105 : ℚ))] : PriceSeries).length ≠ 2 ∧
      ∀ p ∈ ([(19730, 100), (19731, 110), (19732, (105 : ℚ))] : PriceSeries), 0 < p.2) ∧
    ∀ c ∈ calculate_returns [(19730, 100), (19731, 110), (19732, (105 : ℚ))] satNow,
      ∀ v, c = Cell.num v → v ≠ none :=
  ⟨⟨by decide, by norm_num⟩,
    numeric_fields_never_nan _ satNow (by decide) (by norm_num)⟩

/-- `resolveClose` at the first observation's date of a series without
duplicate dates yields the first observation's close. -/
lemma resolveClose_head (s : PriceSeries) (fallback : ℚ) (hs : s ≠ [])
    (hnd : (s.map Prod.fst).Nodup) :
    resolveClose s s.headI.1 fallback = s.headI.2 := by
  cases s with
  | nil => exact absurd rfl hs
  | cons p rest =>
    have hnotin : p.1 ∉ rest.map Prod.fst := (List.nodup_cons.mp (by simpa using hnd)).1
    have hfilter : rest.filter (fun q => decide (q.1 = p.1)) = [] := by
      rw [List.filter_eq_nil]
      intro q hq
      simp only [decide_eq_true_eq]
      intro heq
      exact hnotin (heq ▸ List.mem_map_of_mem Prod.fst hq)
    simp only [List.headI, resolveClose, List.filter_cons, decide_True, if_true]
    rw [hfilter]
    rfl

/-- C5 (counterexample): on a 2-observation series 132 calendar days do not
fit, yet `days_132_return` is 10, not 0 — the 132-day reference resolves to
the series' first trading day (close 100), which has an observation, so the
claimed fallback of the base close to `latestClose` (110) does not occur. -/
theorem short_series_days132_nonzero :
    (calcVals twoObsSeries satNow).days_132_return = 10 ∧
    resolveClose twoObsSeries
      (get_previous_week_last_trading_day (baseDateOf twoObsSeries satNow - 132) twoObsSeries)
      (latestCloseOf twoObsSeries satNow) = 100 ∧
    latestCloseOf twoObsSeries satNow = 110 ∧
    (10 : ℚ) ≠ 0 := by
  refine ⟨?_, rfl, rfl, by norm_num⟩
  have h : (calcVals twoObsSeries satNow).days_132_return = safe_return 110 100 := rfl
  rw [h]
  norm_num [safe_return]

/-- C5 (amended): when every trading day of a (nonempty, duplicate-free)
series lies after the weekly target of the 132-day lookback — the short-series
case — the 132-day reference date falls back to the series' first trading day,
which does have an observation; `days_132_return` is therefore the percentage
return of the latest close against the first close, not 0, and the
`latestClose` substitution for the base close is not used. -/
theorem short_series_days132_uses_first_close (s : PriceSeries) (now : Now)
    (hs : s ≠ []) (hnd : (s.map Prod.fst).Nodup)
    (hshort : ∀ d ∈ s.map Prod.fst,
      weeklyTarget (clampToSeries (baseDateOf s now - 132) s) < d) :
    get_previous_week_last_trading_day (baseDateOf s now - 132) s = s.headI.1 ∧
    (calcVals s now).days_132_return =
      safe_return (latestCloseOf s now) s.headI.2 := by
  have hdate : get_previous_week_last_trading_day (baseDateOf s now - 132) s =
      (s.map Prod.fst).headI := by
    simp only [get_previous_week_last_trading_day]
    cases hlast : ((dropDuplicates (s.map Prod.fst)).filter
        (fun x => x ≤ weeklyTarget (clampToSeries (baseDateOf s now - 132) s))).getLast? with
    | none => simp only [hlast]
    | some r =>
      exfalso
      have hrm := List.mem_filter.mp (mem_of_getLast?_eq hlast)
      have h1 := hshort r (mem_dropDuplicates.mp hrm.1)
      have h2 : r ≤ weeklyTarget (clampToSeries (baseDateOf s now - 132) s) := by
        simpa using hrm.2
      linarith
  have hheadfst : (s.map Prod.fst).headI = s.headI.1 := by
    cases s with
    | nil => exact absurd rfl hs
    | cons p rest => simp
  constructor
  · rw [hdate, hheadfst]
  · have hfield : (calcVals s now).days_132_return =
        safe_return (latestCloseOf s now)
          (resolveClose s (get_previous_week_last_trading_day (baseDateOf s now - 132) s)
            (latestCloseOf s now)) := rfl
    rw [hfield, hdate, hheadfst, resolveClose_head s _ hs hnd]

/-- Witness for the amended C5 on the two-observation series. -/
theorem short_series_days132_uses_first_close_witness :
    (twoObsSeries ≠ [] ∧ (twoObsSeries.map Prod.fst).Nodup ∧
      ∀ d ∈ twoObsSeries.map Prod.fst,
        weeklyTarget (clampToSeries (baseDateOf twoObsSeries satNow - 132) twoObsSeries) < d) ∧
    (get_previous_week_last_trading_day (baseDateOf twoObsSeries satNow - 132) twoObsSeries =
      twoObsSeries.headI.1 ∧
     (calcVals twoObsSeries satNow).days_132_return =
      safe_return (latestCloseOf twoObsSeries satNow) twoObsSeries.headI.2) :=
  ⟨⟨by decide, by decide, by decide⟩,
    short_series_days132_uses_first_close twoObsSeries satNow (by decide) (by decide) (by decide)⟩

/-- C3 (counterexample): on a concrete 4-observation series the long-term
volatility is the nonzero number 198/5 and `days_264_return` is -353/5000,
yet the Sharpe field is not `(days264Return - 5) / longTermVol`: the code
subtracts `risk_free_rate = 0.05`, not 5, from the percentage-unit return. -/
theorem sharpe_risk_free_rate_counterexample :
    (calcVals sharpeSeries satNow).long_term_vol = some (198/5) ∧
    (198 : ℚ)/5 ≠ 0 ∧
    (calcVals sharpeSeries satNow).days_264_return = -353/5000 ∧
    (calcVals sharpeSeries satNow).sharpe = some (-67/22000) ∧
    (-67 : ℚ)/22000 ≠ ((-353 : ℚ)/5000 - 5) / ((198 : ℚ)/5) := by
  have h1 : (calcVals sharpeSeries satNow).long_term_vol =
      some (ratSqrt (sampleVariance
        (dailyReturns [(100 : ℚ), 101, 5151/50, 499647/5000])) * ratSqrt 252 * 100) := rfl
  have h2 : dailyReturns [(100 : ℚ), 101, 5151/50, 499647/5000] = [1/100, 1/50, -3/100] := by
    norm_num [dailyReturns]
  have h3 : sampleVariance [(1 : ℚ)/100, 1/50, -3/100] = 7/10000 := by
    norm_num [sampleVariance, listMean]
  have h4 : ratSqrt (7/10000) = 33/1250 := by
    norm_num [ratSqrt, Int.toNat]
  have h5 : ratSqrt 252 = 15 := by
    norm_num [ratSqrt, Int.toNat]
  have hlv : (calcVals sharpeSeries satNow).long_term_vol = some (198/5) := by
    rw [h1, h2, h3, h4, h5]
    norm_num
  have hd : (calcVals sharpeSeries satNow).days_264_return = safe_return (499647/5000) 100 := rfl
  have hdv : (calcVals sharpeSeries satNow).days_264_return = -353/5000 := by
    rw [hd]
    norm_num [safe_return]
  refine ⟨hlv, by norm_num, hdv, ?_, by norm_num⟩
  rw [calcVals_sharpe_eq, hlv, hdv]
  norm_num [risk_free_rate]

/-- C3 (amended): for every series of at least 2 observations, whenever the
long-term volatility is the number `v`, the Sharpe field equals
`(days264Return - riskFreeRate) / v` with the code's constant
`riskFreeRate = 0.05` (not 5) when `v` is nonzero, and 0 when `v = 0`. -/
theorem sharpe_formula_with_rfr_005 (s : PriceSeries) (now : Now) (h2 : 2 ≤ s.length) :
    ∀ v, (calcVals s now).long_term_vol = some v →
      (calcVals s now).sharpe =
        some (if v = 0 then 0 else ((calcVals s now).days_264_return - 1/20) / v) := by
  intro v hv
  rw [calcVals_sharpe_eq, hv]
  by_cases hv0 : v = 0
  · simp [hv0, risk_free_rate]
  · simp [hv0, risk_free_rate]

/-- Witness for the amended C3 on a constant-price series, whose long-term
volatility is exactly 0 and whose Sharpe field is therefore 0. -/
theorem sharpe_formula_with_rfr_005_witness :
    2 ≤ constSeries.length ∧
    (calcVals constSeries satNow).sharpe =
      some (if (0 : ℚ) = 0 then 0
            else ((calcVals constSeries satNow).days_264_return - 1/20) / 0) := by
  have h1 : (calcVals constSeries satNow).long_term_vol =
      some (ratSqrt (sampleVariance
        (dailyReturns [(100 : ℚ), 100, 100, 100])) * ratSqrt 252 * 100) := rfl
  have h2 : dailyReturns [(100 : ℚ), 100, 100, 100] = [0, 0, 0] := by
    norm_num [dailyReturns]
  have h3 : sampleVariance [(0 : ℚ), 0, 0] = 0 := by
    norm_num [sampleVariance, listMean]
  have h5 : ratSqrt 252 = 15 := by
    norm_num [ratSqrt, Int.toNat]
  have hlv : (calcVals constSeries satNow).long_term_vol = some 0 := by
    rw [h1, h2, h3, h5]
    norm_num [ratSqrt]
  exact ⟨by decide, sharpe_formula_with_rfr_005 constSeries satNow (by decide) 0 hlv⟩
